import Mathlib

/-!
Verification of the monthly-ledger aggregation engine of `mm_web_mobile.py`.

The Python source is shallowly embedded: Python strings become `List Char`,
Python floats (currency amounts) become exact rationals `ℚ`, SQLite tables
become Lean lists of structures, and the aggregation loop `group_month_rows`
becomes structural recursion over the sorted list of days.
-/

/-- Python strings are modelled as lists of characters. -/
abbrev PyStr := List Char

/-- The ten ASCII digits, source constant `EN_DIGITS = "0123456789"`. -/
def EN_DIGITS : PyStr := ['0', '1', '2', '3', '4', '5', '6', '7', '8', '9']

/-- The ten Myanmar digits, source constant `MM_DIGITS = "၀၁၂၃၄၅၆၇၈၉"`. -/
def MM_DIGITS : PyStr := ['၀', '၁', '၂', '၃', '၄', '၅', '၆', '၇', '၈', '၉']

/-- Python `str.translate` with a `str.maketrans`-style table: characters in
the table are replaced, all other characters pass through unchanged. -/
def pyTranslate (tbl : List (Char × Char)) (s : PyStr) : PyStr :=
  s.map (fun c => ((tbl.lookup c).getD c))

/-- Source `mmize` (and `to_myanmar_num` on the rendered string): translate
ASCII digits to Myanmar digits, everything else unchanged. -/
def mmize (s : PyStr) : PyStr := pyTranslate (EN_DIGITS.zip MM_DIGITS) s

/-- The ASCII whitespace characters stripped by Python `str.strip()`. -/
def pySpace : PyStr := [' ', '\t', '\n', '\r', '\x0b', '\x0c']

/-- Whether a character is Python whitespace. -/
def isPySpace (c : Char) : Bool := pySpace.contains c

/-- Python `str.strip()`: drop whitespace from both ends. -/
def pyStrip (s : PyStr) : PyStr :=
  ((s.dropWhile isPySpace).reverse.dropWhile isPySpace).reverse

/-- Source `en_number_string`: translate Myanmar digits back to ASCII
(the table also maps `,` to itself), then `.replace(",", "")`, then
`.strip()`. -/
def en_number_string (s : PyStr) : PyStr :=
  pyStrip ((pyTranslate ((MM_DIGITS.zip EN_DIGITS) ++ [(',', ',')]) s).filter
    (fun c => c != ','))

/-- Fuel-driven decimal rendering of a natural number (structural recursion
so that closed terms evaluate inside the kernel); `natChars` supplies enough
fuel for every digit. -/
def natCharsAux : Nat → Nat → PyStr
  | 0, _ => []
  | fuel + 1, n =>
    if n < 10 then [Nat.digitChar n]
    else natCharsAux fuel (n / 10) ++ [Nat.digitChar (n % 10)]

/-- Decimal rendering of a natural number, as Python `str(n)` produces. -/
def natChars (n : Nat) : PyStr := natCharsAux (n + 1) n

/-- Fuel-driven helper for the `{:,}` format: input is the reversed digit
string; insert a comma after every three characters (working from the
original right end). -/
def commaRevAux : Nat → PyStr → PyStr
  | 0, l => l
  | fuel + 1, l =>
    if l.length ≤ 3 then l
    else l.take 3 ++ ',' :: commaRevAux fuel (l.drop 3)

/-- Grouping pass of the `{:,}` format on the reversed digit string. -/
def commaRev (l : PyStr) : PyStr := commaRevAux l.length l

/-- Python `f"{n:,}"` for a natural number: decimal digits with a comma
thousands separator every three digits. -/
def commaNat (n : Nat) : PyStr := (commaRev (natChars n).reverse).reverse

/-- Python `f"{k:,}"` for an integer. -/
def intCommaFmt (k : Int) : PyStr :=
  if k < 0 then '-' :: commaNat k.natAbs else commaNat k.natAbs

/-- Python `round()` on an exact rational: round to the nearest integer,
ties to the even neighbour (banker's rounding). -/
def pyRound (q : ℚ) : Int :=
  if q - ⌊q⌋ < 1 / 2 then ⌊q⌋
  else if 1 / 2 < q - ⌊q⌋ then ⌊q⌋ + 1
  else if ⌊q⌋ % 2 = 0 then ⌊q⌋ else ⌊q⌋ + 1

/-- The argument of `format_amount`: either a numeric value (a value Python's
`float()` accepts), or a non-numeric value whose `float()` conversion raises,
carried as its literal string rendering. -/
inductive PyVal where
  | num (q : ℚ)
  | str (s : PyStr)

/-- Source `format_amount`: `f"{int(round(float(n))):,}"`, and on the
exception path (non-numeric input) `str(n)`. -/
def format_amount : PyVal → PyStr
  | .num q => intCommaFmt (pyRound q)
  | .str s => s

/-- Source `format_amount_mm`: `mmize(format_amount(n))`. -/
def format_amount_mm (q : ℚ) : PyStr := mmize (format_amount (.num q))

/-- Source `to_myanmar_num`: `str(n).translate(EN→MM)`. -/
def to_myanmar_num (n : Nat) : PyStr := mmize (natChars n)

/-- A calendar date (the `datetime.date` of an entry). -/
structure Date where
  year : Nat
  month : Nat
  day : Nat
deriving DecidableEq

/-- A timestamp with minute precision (`datetime.datetime` parsed from the
entry's `"%Y-%m-%d %H:%M"` date column). -/
structure DateTime where
  year : Nat
  month : Nat
  day : Nat
  hour : Nat
  minute : Nat
deriving DecidableEq

/-- The `dt.date()` projection of a timestamp. -/
def DateTime.date (t : DateTime) : Date := ⟨t.year, t.month, t.day⟩

/-- Chronological order on dates (lexicographic year, month, day). -/
def dateLE (a b : Date) : Prop :=
  a.year < b.year ∨ (a.year = b.year ∧
    (a.month < b.month ∨ (a.month = b.month ∧ a.day ≤ b.day)))

/-- Strict chronological order on dates. -/
def dateLT (a b : Date) : Prop :=
  a.year < b.year ∨ (a.year = b.year ∧
    (a.month < b.month ∨ (a.month = b.month ∧ a.day < b.day)))

instance : DecidableRel dateLE := fun a b =>
  inferInstanceAs (Decidable (a.year < b.year ∨ (a.year = b.year ∧
    (a.month < b.month ∨ (a.month = b.month ∧ a.day ≤ b.day)))))

instance : DecidableRel dateLT := fun a b =>
  inferInstanceAs (Decidable (a.year < b.year ∨ (a.year = b.year ∧
    (a.month < b.month ∨ (a.month = b.month ∧ a.day < b.day)))))

instance : IsTotal Date dateLE :=
  ⟨fun a b => by unfold dateLE; omega⟩

instance : IsTrans Date dateLE :=
  ⟨fun a b c hab hbc => by unfold dateLE at hab hbc ⊢; omega⟩

/-- Chronological order on timestamps (lexicographic on all five fields). -/
def dtLE (a b : DateTime) : Prop :=
  a.year < b.year ∨ (a.year = b.year ∧
    (a.month < b.month ∨ (a.month = b.month ∧
      (a.day < b.day ∨ (a.day = b.day ∧
        (a.hour < b.hour ∨ (a.hour = b.hour ∧ a.minute ≤ b.minute)))))))

instance : DecidableRel dtLE := fun a b =>
  inferInstanceAs (Decidable (a.year < b.year ∨ (a.year = b.year ∧
    (a.month < b.month ∨ (a.month = b.month ∧
      (a.day < b.day ∨ (a.day = b.day ∧
        (a.hour < b.hour ∨ (a.hour = b.hour ∧ a.minute ≤ b.minute)))))))))

instance : IsTotal DateTime dtLE :=
  ⟨fun a b => by unfold dtLE; omega⟩

instance : IsTrans DateTime dtLE :=
  ⟨fun a b c hab hbc => by unfold dtLE at hab hbc ⊢; omega⟩

/-- A ledger entry as consumed by the aggregator: the tuple
`(r["id"], dt, r["description"], float(r["amount"]), r["note"])` that
`group_month_rows` builds for each fetched income/expense row. -/
structure Entry where
  id : Nat
  dt : DateTime
  description : PyStr
  amount : ℚ
  note : PyStr
deriving DecidableEq

/-- Order on entries by their timestamp, the `key=lambda x: x[1]` sort used
inside `group_month_rows`. -/
def entLE (a b : Entry) : Prop := dtLE a.dt b.dt

instance : DecidableRel entLE := fun a b =>
  inferInstanceAs (Decidable (dtLE a.dt b.dt))

instance : IsTotal Entry entLE :=
  ⟨fun a b => IsTotal.total (r := dtLE) a.dt b.dt⟩

instance : IsTrans Entry entLE :=
  ⟨fun _ _ _ hab hbc => IsTrans.trans (r := dtLE) _ _ _ hab hbc⟩

/-- Left-pad a decimal rendering with zeros to width `w` (Python strftime
zero-padded fields). -/
def padNum (w n : Nat) : PyStr :=
  List.replicate (w - (natChars n).length) '0' ++ natChars n

/-- Python `dt.strftime("%d-%m-%Y")`: zero-padded day and month. -/
def strftime_dmY (t : DateTime) : PyStr :=
  padNum 2 t.day ++ '-' :: (padNum 2 t.month ++ '-' :: padNum 4 t.year)

/-- Python `dt.strftime("%H:%M")`. -/
def strftime_HM (t : DateTime) : PyStr :=
  padNum 2 t.hour ++ ':' :: padNum 2 t.minute

/-- Source `date_no_zeroes`: `f"{d.day}-{d.month}-{d.year}"`, day and month
without leading zeros. -/
def date_no_zeroes (d : Date) : PyStr :=
  natChars d.day ++ '-' :: (natChars d.month ++ '-' :: natChars d.year)

/-- Tag of a derived row: Income detail, Expense detail, or Total/separator. -/
inductive RowKind where
  | I
  | E
  | T
deriving DecidableEq

/-- A derived display row, the dict appended to `rows` in
`group_month_rows`. All amount and date fields hold the already-formatted
localized strings, exactly as in the source. -/
structure Row where
  kind : RowKind
  key : PyStr
  no : PyStr
  date : PyStr
  time : PyStr
  desc : PyStr
  income : PyStr
  expense : PyStr
  balance : PyStr
  note : PyStr
  highlight : Bool
deriving DecidableEq

/-- Whether a row is a Detail row (kind `I` or `E`, not a Total/separator). -/
def Row.isDetail (r : Row) : Bool :=
  match r.kind with
  | .T => false
  | _ => true

/-- Composite key `f"I-{rid}"` of an income row. -/
def incKey (e : Entry) : PyStr := 'I' :: '-' :: natChars e.id

/-- Composite key `f"E-{rid}"` of an expense row. -/
def expKey (e : Entry) : PyStr := 'E' :: '-' :: natChars e.id

/-- The income Detail row appended for one income entry, with `n` the per-day
sequence number and `bal` the running balance after adding the amount. -/
def mkIncRow (lk : Option PyStr) (n : Nat) (bal : ℚ) (e : Entry) : Row :=
  { kind := .I
    key := incKey e
    no := to_myanmar_num n
    date := mmize (strftime_dmY e.dt)
    time := mmize (strftime_HM e.dt)
    desc := if e.description = [] then ("Income").data else e.description
    income := format_amount_mm e.amount
    expense := []
    balance := format_amount_mm bal
    note := e.note
    highlight := decide (lk = some (incKey e)) }

/-- The expense Detail row appended for one expense entry. -/
def mkExpRow (lk : Option PyStr) (n : Nat) (bal : ℚ) (e : Entry) : Row :=
  { kind := .E
    key := expKey e
    no := to_myanmar_num n
    date := mmize (strftime_dmY e.dt)
    time := mmize (strftime_HM e.dt)
    desc := e.description
    income := []
    expense := format_amount_mm e.amount
    balance := format_amount_mm bal
    note := e.note
    highlight := decide (lk = some (expKey e)) }

/-- Caption text of a day-total row:
`f"{mmize(date_no_zeroes(d))} ရက်နေ့ စုစုပေါင်းသုံးငွေ ({format_amount_mm(t)} ကျပ်)"`. -/
def captionDesc (d : Date) (q : ℚ) : PyStr :=
  mmize (date_no_zeroes d) ++ ((" ရက်နေ့ စုစုပေါင်းသုံးငွေ (").data ++
    (format_amount_mm q ++ (" ကျပ်)").data))

/-- The day-total caption row carrying the formatted day expense subtotal. -/
def totalRow (d : Date) (q : ℚ) : Row :=
  { kind := .T, key := [], no := [], date := [], time := []
    desc := captionDesc d q
    income := [], expense := [], balance := [], note := [], highlight := false }

/-- The plain `"--------"` divider row. -/
def dividerRow : Row :=
  { kind := .T, key := [], no := [], date := [], time := []
    desc := ("--------").data
    income := [], expense := [], balance := [], note := [], highlight := false }

/-- Running total of the amounts of a list of entries. -/
def sumAmt (l : List Entry) : ℚ := (l.map (·.amount)).sum

/-- The income loop body of `group_month_rows`: given the starting per-day
sequence number and running balance, emit one Detail row per entry; returns
the rows, the next sequence number and the updated balance. -/
def incRows (lk : Option PyStr) : Nat → ℚ → List Entry → List Row × Nat × ℚ
  | n, bal, [] => ([], n, bal)
  | n, bal, e :: es =>
    (mkIncRow lk n (bal + e.amount) e ::
        (incRows lk (n + 1) (bal + e.amount) es).1,
      (incRows lk (n + 1) (bal + e.amount) es).2)

/-- The expense loop body of `group_month_rows`: also accumulates the
day-local expense subtotal `day_exp_total`. -/
def expRows (lk : Option PyStr) : Nat → ℚ → ℚ → List Entry → List Row × Nat × ℚ × ℚ
  | n, bal, tot, [] => ([], n, bal, tot)
  | n, bal, tot, e :: es =>
    (mkExpRow lk n (bal - e.amount) e ::
        (expRows lk (n + 1) (bal - e.amount) (tot + e.amount) es).1,
      (expRows lk (n + 1) (bal - e.amount) (tot + e.amount) es).2)

/-- One iteration of the per-day loop of `group_month_rows`: incomes, then
expenses, then (if the day has any entry) the Total caption and divider pair;
returns the rows and the carried-forward running balance. -/
def dayBlock (lk : Option PyStr) (d : Date) (incs exps : List Entry) (bal : ℚ) :
    List Row × ℚ :=
  ((incRows lk 1 bal incs).1 ++
      (expRows lk (incRows lk 1 bal incs).2.1 (incRows lk 1 bal incs).2.2 0 exps).1 ++
      (if incs = [] ∧ exps = [] then []
       else [totalRow d
          (expRows lk (incRows lk 1 bal incs).2.1 (incRows lk 1 bal incs).2.2 0 exps).2.2.2,
        dividerRow]),
    (expRows lk (incRows lk 1 bal incs).2.1 (incRows lk 1 bal incs).2.2 0 exps).2.2.1)

/-- Bool test for an entry's calendar day (grouping key `dt.date()`). -/
def dayEq (d : Date) (e : Entry) : Bool := decide (e.dt.date = d)

/-- `inc_by_day[d]` after the per-day stable sort by timestamp. -/
def dayIncs (inc : List Entry) (d : Date) : List Entry :=
  List.insertionSort entLE (inc.filter (dayEq d))

/-- `exp_by_day[d]` after the per-day stable sort by timestamp. -/
def dayExps (exp : List Entry) (d : Date) : List Entry :=
  List.insertionSort entLE (exp.filter (dayEq d))

/-- `sorted(days)`: the distinct calendar days present in either partition,
ascending. -/
def monthDays (inc exp : List Entry) : List Date :=
  List.insertionSort dateLE ((inc.map (·.dt.date) ++ exp.map (·.dt.date)).dedup)

/-- The main loop of `group_month_rows` over the sorted day list, threading
the running balance (started at `0.0` for the month, never reset). -/
def monthFold (lk : Option PyStr) (inc exp : List Entry) :
    List Date → ℚ → List Row
  | [], _ => []
  | d :: ds, bal =>
    (dayBlock lk d (dayIncs inc d) (dayExps exp d) bal).1 ++
      monthFold lk inc exp ds (dayBlock lk d (dayIncs inc d) (dayExps exp d) bal).2

/-- Source `group_month_rows`, as a function of the month's income entries,
expense entries and the session's `last_kind_id` highlight key. -/
def group_month_rows (inc exp : List Entry) (lk : Option PyStr) : List Row :=
  monthFold lk inc exp (monthDays inc exp) 0

/-- A persisted income or expense row (tables `incomes` / `expenses`); the
`date` text column is carried structurally. -/
structure DBRow where
  id : Nat
  user_id : Nat
  date : DateTime
  description : PyStr
  amount : ℚ
  note : PyStr
deriving DecidableEq

/-- A persisted `month_summary` row (the `id`/`created_at` columns, which no
query result the claims mention depends on, are omitted). -/
structure SummaryRow where
  user_id : Nat
  year : Nat
  month : Nat
  total : ℚ
deriving DecidableEq

/-- A persisted `users` row. -/
structure UserRow where
  id : Nat
  username : PyStr
  password : PyStr
deriving DecidableEq

/-- The SQLite database state: the four tables. -/
structure Database where
  users : List UserRow
  expenses : List DBRow
  incomes : List DBRow
  month_summary : List SummaryRow
deriving DecidableEq

/-- Next AUTOINCREMENT id for a ledger table. -/
def nextId (l : List DBRow) : Nat := (l.map (·.id)).foldr max 0 + 1

/-- Next AUTOINCREMENT id for the users table. -/
def nextUserId (l : List UserRow) : Nat := (l.map (·.id)).foldr max 0 + 1

/-- The `WHERE user_id=? AND strftime('%Y',date)=? AND strftime('%m',date)=?`
month filter shared by the ledger queries. -/
def monthFilter (uid y m : Nat) (r : DBRow) : Bool :=
  decide (r.user_id = uid ∧ r.date.year = y ∧ r.date.month = m)

/-- Order on stored rows by their date column (`ORDER BY date ASC`). -/
def dbrowLE (a b : DBRow) : Prop := dtLE a.date b.date

instance : DecidableRel dbrowLE := fun a b =>
  inferInstanceAs (Decidable (dtLE a.date b.date))

/-- Source `Database.add_expense`: INSERT and return the new row id. -/
def Database.add_expense (db : Database) (uid : Nat) (date : DateTime)
    (desc : PyStr) (amount : ℚ) (note : PyStr) : Database × Nat :=
  let rid := nextId db.expenses
  ({ db with expenses := db.expenses ++ [⟨rid, uid, date, desc, amount, note⟩] }, rid)

/-- Source `Database.update_expense`: UPDATE description, amount, note by id. -/
def Database.update_expense (db : Database) (eid : Nat) (desc : PyStr)
    (amount : ℚ) (note : PyStr) : Database :=
  { db with expenses := db.expenses.map (fun r =>
      if r.id = eid then { r with description := desc, amount := amount, note := note }
      else r) }

/-- Source `Database.delete_expense`: DELETE by id. -/
def Database.delete_expense (db : Database) (eid : Nat) : Database :=
  { db with expenses := db.expenses.filter (fun r => r.id != eid) }

/-- Source `Database.add_income`. -/
def Database.add_income (db : Database) (uid : Nat) (date : DateTime)
    (amount : ℚ) (desc : PyStr) (note : PyStr) : Database × Nat :=
  let rid := nextId db.incomes
  ({ db with incomes := db.incomes ++ [⟨rid, uid, date, desc, amount, note⟩] }, rid)

/-- Source `Database.update_income`. -/
def Database.update_income (db : Database) (iid : Nat) (amount : ℚ)
    (desc : PyStr) (note : PyStr) : Database :=
  { db with incomes := db.incomes.map (fun r =>
      if r.id = iid then { r with description := desc, amount := amount, note := note }
      else r) }

/-- Source `Database.delete_income`. -/
def Database.delete_income (db : Database) (iid : Nat) : Database :=
  { db with incomes := db.incomes.filter (fun r => r.id != iid) }

/-- Source `Database.get_expenses_by_month`: month-scoped SELECT ordered by
the date column ascending. -/
def Database.get_expenses_by_month (db : Database) (uid y m : Nat) : List DBRow :=
  List.insertionSort dbrowLE (db.expenses.filter (monthFilter uid y m))

/-- Source `Database.get_incomes_by_month`. -/
def Database.get_incomes_by_month (db : Database) (uid y m : Nat) : List DBRow :=
  List.insertionSort dbrowLE (db.incomes.filter (monthFilter uid y m))

/-- Source `Database.get_total_expenses_by_month`: `SELECT SUM(amount)` with
NULL (empty month) coalesced to `0.0`. -/
def Database.get_total_expenses_by_month (db : Database) (uid y m : Nat) : ℚ :=
  ((db.expenses.filter (monthFilter uid y m)).map (·.amount)).sum

/-- Source `Database.close_month`: compute the month's expense total and
always INSERT a fresh `month_summary` row; returns the total. -/
def Database.close_month (db : Database) (uid y m : Nat) : Database × ℚ :=
  let total := ((db.expenses.filter (monthFilter uid y m)).map (·.amount)).sum
  ({ db with month_summary := db.month_summary ++ [⟨uid, y, m, total⟩] }, total)

/-- Source `Database.create_user`: reject empty username/password, translate
the UNIQUE-constraint violation on an existing username into failure,
otherwise INSERT; returns success flag. -/
def Database.create_user (db : Database) (username password : PyStr) :
    Database × Bool :=
  if pyStrip username = [] ∨ password = [] then (db, false)
  else if db.users.any (fun r => r.username == pyStrip username) then (db, false)
  else ({ db with users := db.users ++
    [⟨nextUserId db.users, pyStrip username, password⟩] }, true)

/-- The session state consumed by the close-month route: the viewed (year,
month) pointer and the last-touched entry key. -/
structure Session where
  current_year : Nat
  current_month : Nat
  last_kind_id : Option PyStr
deriving DecidableEq

/-- Source `next_month`: `(y, m+1) if m < 12 else (y+1, 1)`. -/
def next_month (y m : Nat) : Nat × Nat :=
  if m < 12 then (y, m + 1) else (y + 1, 1)

/-- The `/close-month` route: if the viewed month has no expense rows, flash
an error and change nothing (`none` result); otherwise snapshot the month via
`Database.close_month`, advance the session's month pointer, clear the
last-touched key and report the snapshotted total. -/
def close_month_route (db : Database) (sess : Session) (uid : Nat) :
    Database × Session × Option ℚ :=
  if db.get_expenses_by_month uid sess.current_year sess.current_month = [] then
    (db, sess, none)
  else
    ((db.close_month uid sess.current_year sess.current_month).1,
     ⟨(next_month sess.current_year sess.current_month).1,
      (next_month sess.current_year sess.current_month).2, none⟩,
     some (db.close_month uid sess.current_year sess.current_month).2)

/-- Net balance contribution of one calendar day: that day's incomes minus
that day's expenses. -/
def dayDelta (inc exp : List Entry) (d : Date) : ℚ :=
  sumAmt (inc.filter (dayEq d)) - sumAmt (exp.filter (dayEq d))

/-- Net balance contribution of a list of days. -/
def deltaSum (inc exp : List Entry) (ds : List Date) : ℚ :=
  (ds.map (dayDelta inc exp)).sum

/-- The running balance carried into a calendar day: the incomes minus the
expenses of all strictly earlier days of the month. -/
def prevBal (inc exp : List Entry) (d : Date) : ℚ :=
  sumAmt (inc.filter (fun e => decide (dateLT e.dt.date d))) -
    sumAmt (exp.filter (fun e => decide (dateLT e.dt.date d)))

/-- Concrete entry from the spec's acceptance scenario: Income 2024-03-01
09:00, amount 50000, "Salary". -/
def entSalary : Entry := ⟨1, ⟨2024, 3, 1, 9, 0⟩, ("Salary").data, 50000, []⟩

/-- Concrete entry: Expense 2024-03-01 10:00, amount 5000, "Lunch". -/
def entLunch : Entry := ⟨1, ⟨2024, 3, 1, 10, 0⟩, ("Lunch").data, 5000, []⟩

/-- Concrete entry: Expense 2024-03-02 09:00, amount 2000, "Coffee". -/
def entCoffee : Entry := ⟨2, ⟨2024, 3, 2, 9, 0⟩, ("Coffee").data, 2000, []⟩

/-- A database whose March 2024 ledger for user 1 holds a single expense. -/
def dbWithExp : Database :=
  { users := [⟨1, ("admin").data, ("1234").data⟩]
    expenses := [⟨1, 1, ⟨2024, 3, 1, 10, 0⟩, ("Lunch").data, 5000, []⟩]
    incomes := []
    month_summary := [] }

/-- A database whose March 2024 ledger for user 1 holds one income and no
expenses at all. -/
def dbIncOnly : Database :=
  { users := [⟨1, ("admin").data, ("1234").data⟩]
    expenses := []
    incomes := [⟨1, 1, ⟨2024, 3, 1, 9, 0⟩, ("Income").data, 50000, []⟩]
    month_summary := [] }

/-- A session viewing March 2024 with no last-touched entry. -/
def sessMar2024 : Session := ⟨2024, 3, none⟩

attribute [local semireducible] Rat.add Rat.sub Rat.mul Rat.inv

theorem natCharsAux_congr :
    ∀ n f₁ f₂, n < f₁ → n < f₂ → natCharsAux f₁ n = natCharsAux f₂ n := by
  intro n
  induction n using Nat.strong_induction_on with
  | _ n ih =>
    intro f₁ f₂ h₁ h₂
    match f₁, h₁ with
    | g₁ + 1, _ =>
      match f₂, h₂ with
      | g₂ + 1, _ =>
        simp only [natCharsAux]
        by_cases h : n < 10
        · simp [h]
        · simp only [if_neg h]
          have hdiv : n / 10 < n := Nat.div_lt_self (by omega) (by omega)
          rw [ih (n / 10) hdiv g₁ (n + 1) (by omega) (by omega),
            ih (n / 10) hdiv g₂ (n + 1) (by omega) (by omega)]

theorem natChars_eq (n : Nat) : natChars n =
    if n < 10 then [Nat.digitChar n]
    else natChars (n / 10) ++ [Nat.digitChar (n % 10)] := by
  conv_lhs => rw [show natChars n = natCharsAux (n + 1) n from rfl]
  simp only [natCharsAux]
  by_cases h : n < 10
  · rw [if_pos h, if_pos h]
  · rw [if_neg h, if_neg h]
    have hdiv : n / 10 < n := Nat.div_lt_self (by omega) (by omega)
    rw [natCharsAux_congr (n / 10) n (n / 10 + 1) hdiv (by omega)]
    rfl

theorem natChars_ne_nil (n : Nat) : natChars n ≠ [] := by
  rw [natChars_eq]
  split <;> simp

theorem natChars_lt10 (n : Nat) (h : n < 10) : natChars n = [Nat.digitChar n] := by
  rw [natChars_eq, if_pos h]

theorem natChars_head_ne_zero :
    ∀ n, 0 < n → ∀ s : PyStr, natChars n ≠ '0' :: s := by
  intro n
  induction n using Nat.strong_induction_on with
  | _ n ih =>
    intro hn s hcs
    rw [natChars_eq] at hcs
    by_cases h : n < 10
    · rw [if_pos h] at hcs
      have h1 : Nat.digitChar n = '0' := (List.cons_eq_cons.mp hcs).1
      interval_cases n <;> exact absurd h1 (by decide)
    · rw [if_neg h] at hcs
      obtain ⟨c', s', h'⟩ : ∃ c' s', natChars (n / 10) = c' :: s' := by
        cases hq : natChars (n / 10) with
        | nil => exact absurd hq (natChars_ne_nil _)
        | cons a b => exact ⟨a, b, rfl⟩
      rw [h'] at hcs
      have hc : c' = '0' := by
        have h2 := (List.cons_eq_cons.mp hcs).1
        simpa using h2
      have hpos : 0 < n / 10 := Nat.div_pos (by omega) (by omega)
      exact ih (n / 10) (Nat.div_lt_self (by omega) (by omega)) hpos s' (hc ▸ h')

theorem pyRound_near (q : ℚ) : |(pyRound q : ℚ) - q| ≤ 1 / 2 := by
  have h0 : (⌊q⌋ : ℚ) ≤ q := Int.floor_le q
  have h1 : q < ⌊q⌋ + 1 := Int.lt_floor_add_one q
  unfold pyRound
  split_ifs with ha hb hc <;> (rw [abs_le]; push_cast; constructor <;> linarith)

theorem roundtrip_char (c : Char)
    (hc : c ∈ EN_DIGITS ∨ c = ',' ∨ isPySpace c = true) :
    ((((MM_DIGITS.zip EN_DIGITS) ++ [(',', ',')]).lookup
      (((EN_DIGITS.zip MM_DIGITS).lookup c).getD c)).getD
      (((EN_DIGITS.zip MM_DIGITS).lookup c).getD c)) = c := by
  rcases hc with hd | hcomma | hsp
  · unfold EN_DIGITS at hd
    simp only [List.mem_cons, List.not_mem_nil, or_false] at hd
    rcases hd with rfl | rfl | rfl | rfl | rfl | rfl | rfl | rfl | rfl | rfl <;> decide
  · subst hcomma; decide
  · have hmem : c ∈ pySpace := by
      unfold isPySpace at hsp
      exact List.mem_of_elem_eq_true hsp
    unfold pySpace at hmem
    simp only [List.mem_cons, List.not_mem_nil, or_false] at hmem
    rcases hmem with rfl | rfl | rfl | rfl | rfl | rfl <;> decide

theorem pyTranslate_roundtrip : ∀ x : PyStr,
    (∀ c ∈ x, c ∈ EN_DIGITS ∨ c = ',' ∨ isPySpace c = true) →
    pyTranslate ((MM_DIGITS.zip EN_DIGITS) ++ [(',', ',')]) (mmize x) = x := by
  intro x
  induction x with
  | nil => intro _; rfl
  | cons c cs ih =>
    intro h
    have hc := h c (List.mem_cons_self c cs)
    have hrest := ih (fun d hd => h d (List.mem_cons_of_mem c hd))
    simp only [mmize, pyTranslate, List.map_cons] at hrest ⊢
    rw [hrest, roundtrip_char c hc]

theorem dropWhile_eq_self_of (p : Char → Bool) (l : PyStr)
    (h : ∀ c ∈ l, p c = false) : l.dropWhile p = l := by
  cases l with
  | nil => rfl
  | cons c cs => simp [List.dropWhile, h c (List.mem_cons_self c cs)]

theorem pyStrip_eq_self (l : PyStr) (h : ∀ c ∈ l, isPySpace c = false) :
    pyStrip l = l := by
  unfold pyStrip
  rw [dropWhile_eq_self_of _ l h,
    dropWhile_eq_self_of _ _ (fun c hc => h c (List.mem_reverse.mp hc)),
    List.reverse_reverse]

theorem sumAmt_nil : sumAmt [] = 0 := rfl

theorem sumAmt_cons (e : Entry) (l : List Entry) :
    sumAmt (e :: l) = e.amount + sumAmt l := by
  simp [sumAmt]

theorem sumAmt_perm {l₁ l₂ : List Entry} (h : List.Perm l₁ l₂) :
    sumAmt l₁ = sumAmt l₂ := by
  unfold sumAmt
  exact (h.map (·.amount)).sum_eq

theorem sum_map_add_q {α : Type} (l : List α) (f g : α → ℚ) :
    (l.map (fun x => f x + g x)).sum = (l.map f).sum + (l.map g).sum := by
  induction l with
  | nil => simp
  | cons x xs ih => simp only [List.map_cons, List.sum_cons, ih]; ring

theorem sum_map_ite_q (x : Date) (c : ℚ) :
    ∀ ds : List Date, ds.Nodup → x ∈ ds →
      (ds.map (fun d => if x = d then c else 0)).sum = c := by
  intro ds
  induction ds with
  | nil => intro _ h; exact absurd h (List.not_mem_nil x)
  | cons d rest ih =>
    intro hnd hx
    have hnd' := List.nodup_cons.mp hnd
    rcases List.mem_cons.mp hx with rfl | h
    · simp only [List.map_cons, List.sum_cons, if_pos rfl]
      have hz : (rest.map (fun d => if x = d then c else 0)).sum = 0 := by
        apply List.sum_eq_zero
        intro y hy
        obtain ⟨d', hd', hval⟩ := List.mem_map.mp hy
        have hne : x ≠ d' := by
          intro he
          apply hnd'.1
          rw [he]
          exact hd'
        rw [← hval, if_neg hne]
      rw [hz, add_zero]
      simp
    · have hne : x ≠ d := by
        intro he
        apply hnd'.1
        rw [← he]
        exact h
      simp only [List.map_cons, List.sum_cons, if_neg hne, zero_add]
      exact ih hnd'.2 h

theorem sum_filter_partition (ds : List Date) (hnd : ds.Nodup) :
    ∀ l : List Entry, (∀ e ∈ l, e.dt.date ∈ ds) →
      (ds.map (fun d => sumAmt (l.filter (dayEq d)))).sum = sumAmt l := by
  intro l
  induction l with
  | nil =>
    intro _
    simp [sumAmt]
  | cons e es ih =>
    intro hcov
    have hmem : e.dt.date ∈ ds := hcov e (List.mem_cons_self e es)
    have hcov' : ∀ x ∈ es, x.dt.date ∈ ds :=
      fun x hx => hcov x (List.mem_cons_of_mem e hx)
    have hpt : ∀ d ∈ ds, sumAmt ((e :: es).filter (dayEq d)) =
        (if e.dt.date = d then e.amount else 0) + sumAmt (es.filter (dayEq d)) := by
      intro d _
      by_cases h : e.dt.date = d
      · simp [List.filter_cons, dayEq, h, sumAmt_cons]
      · simp [List.filter_cons, dayEq, h]
    calc (ds.map fun d => sumAmt ((e :: es).filter (dayEq d))).sum
        = (ds.map fun d => (if e.dt.date = d then e.amount else 0) +
            sumAmt (es.filter (dayEq d))).sum := by
          exact congrArg List.sum (List.map_congr_left hpt)
      _ = (ds.map fun d => if e.dt.date = d then e.amount else 0).sum +
            (ds.map fun d => sumAmt (es.filter (dayEq d))).sum :=
          sum_map_add_q ds _ _
      _ = e.amount + sumAmt es := by
          rw [sum_map_ite_q e.dt.date e.amount ds hnd hmem, ih hcov']
      _ = sumAmt (e :: es) := (sumAmt_cons e es).symm

theorem incRows_num (lk : Option PyStr) :
    ∀ (l : List Entry) (n : Nat) (bal : ℚ), (incRows lk n bal l).2.1 = n + l.length := by
  intro l
  induction l with
  | nil => intro n bal; simp [incRows]
  | cons e es ih =>
    intro n bal
    simp only [incRows, List.length_cons]
    rw [ih]
    omega

theorem incRows_bal (lk : Option PyStr) :
    ∀ (l : List Entry) (n : Nat) (bal : ℚ), (incRows lk n bal l).2.2 = bal + sumAmt l := by
  intro l
  induction l with
  | nil => intro n bal; simp [incRows, sumAmt_nil]
  | cons e es ih =>
    intro n bal
    simp only [incRows]
    rw [ih, sumAmt_cons]
    ring

theorem incRows_len (lk : Option PyStr) :
    ∀ (l : List Entry) (n : Nat) (bal : ℚ), (incRows lk n bal l).1.length = l.length := by
  intro l
  induction l with
  | nil => intro n bal; simp [incRows]
  | cons e es ih =>
    intro n bal
    simp only [incRows, List.length_cons]
    rw [ih]

theorem incRows_map_kind (lk : Option PyStr) :
    ∀ (l : List Entry) (n : Nat) (bal : ℚ),
      (incRows lk n bal l).1.map (·.kind) = List.replicate l.length RowKind.I := by
  intro l
  induction l with
  | nil => intro n bal; simp [incRows]
  | cons e es ih =>
    intro n bal
    simp only [incRows, List.map_cons, List.length_cons, List.replicate_succ]
    rw [ih]
    rfl

theorem incRows_map_no (lk : Option PyStr) :
    ∀ (l : List Entry) (n : Nat) (bal : ℚ),
      (incRows lk n bal l).1.map (·.no) =
        (List.range' n l.length).map to_myanmar_num := by
  intro l
  induction l with
  | nil => intro n bal; simp [incRows]
  | cons e es ih =>
    intro n bal
    simp only [incRows, List.map_cons, List.length_cons, List.range'_succ]
    rw [ih]
    rfl

theorem incRows_map_key (lk : Option PyStr) :
    ∀ (l : List Entry) (n : Nat) (bal : ℚ),
      (incRows lk n bal l).1.map (·.key) = l.map incKey := by
  intro l
  induction l with
  | nil => intro n bal; simp [incRows]
  | cons e es ih =>
    intro n bal
    simp only [incRows, List.map_cons]
    rw [ih]
    rfl

theorem incRows_mem (lk : Option PyStr) :
    ∀ (l : List Entry) (n : Nat) (bal : ℚ) (r : Row), r ∈ (incRows lk n bal l).1 →
      r.kind = RowKind.I ∧ ∃ t : DateTime, r.date = mmize (strftime_dmY t) := by
  intro l
  induction l with
  | nil => intro n bal r hr; simp [incRows] at hr
  | cons e es ih =>
    intro n bal r hr
    simp only [incRows, List.mem_cons] at hr
    rcases hr with rfl | hr
    · exact ⟨rfl, ⟨e.dt, rfl⟩⟩
    · exact ih (n + 1) (bal + e.amount) r hr

theorem incRows_getLast (lk : Option PyStr) :
    ∀ (l : List Entry) (n : Nat) (bal : ℚ), l ≠ [] →
      ∃ r : Row, (incRows lk n bal l).1.getLast? = some r ∧
        r.balance = format_amount_mm (bal + sumAmt l) := by
  intro l
  induction l with
  | nil => intro n bal h; exact absurd rfl h
  | cons e es ih =>
    intro n bal _
    by_cases hes : es = []
    · subst hes
      refine ⟨mkIncRow lk n (bal + e.amount) e, by simp [incRows], ?_⟩
      show format_amount_mm (bal + e.amount) = _
      rw [sumAmt_cons, sumAmt_nil, add_zero]
    · obtain ⟨r, hr, hb⟩ := ih (n + 1) (bal + e.amount) hes
      have hne : (incRows lk (n + 1) (bal + e.amount) es).1 ≠ [] := by
        intro h0
        apply hes
        have hlen := incRows_len lk es (n + 1) (bal + e.amount)
        rw [h0] at hlen
        exact List.length_eq_zero.mp hlen.symm
      refine ⟨r, ?_, ?_⟩
      · simp only [incRows]
        have hsplit : (mkIncRow lk n (bal + e.amount) e ::
            (incRows lk (n + 1) (bal + e.amount) es).1) =
            [mkIncRow lk n (bal + e.amount) e] ++
              (incRows lk (n + 1) (bal + e.amount) es).1 := rfl
        rw [hsplit, List.getLast?_append_of_ne_nil _ hne, hr]
      · rw [hb]
        congr 1
        rw [sumAmt_cons]
        ring

theorem expRows_num (lk : Option PyStr) :
    ∀ (l : List Entry) (n : Nat) (bal tot : ℚ),
      (expRows lk n bal tot l).2.1 = n + l.length := by
  intro l
  induction l with
  | nil => intro n bal tot; simp [expRows]
  | cons e es ih =>
    intro n bal tot
    simp only [expRows, List.length_cons]
    rw [ih]
    omega

theorem expRows_bal (lk : Option PyStr) :
    ∀ (l : List Entry) (n : Nat) (bal tot : ℚ),
      (expRows lk n bal tot l).2.2.1 = bal - sumAmt l := by
  intro l
  induction l with
  | nil => intro n bal tot; simp [expRows, sumAmt_nil]
  | cons e es ih =>
    intro n bal tot
    simp only [expRows]
    rw [ih, sumAmt_cons]
    ring

theorem expRows_tot (lk : Option PyStr) :
    ∀ (l : List Entry) (n : Nat) (bal tot : ℚ),
      (expRows lk n bal tot l).2.2.2 = tot + sumAmt l := by
  intro l
  induction l with
  | nil => intro n bal tot; simp [expRows, sumAmt_nil]
  | cons e es ih =>
    intro n bal tot
    simp only [expRows]
    rw [ih, sumAmt_cons]
    ring

theorem expRows_len (lk : Option PyStr) :
    ∀ (l : List Entry) (n : Nat) (bal tot : ℚ),
      (expRows lk n bal tot l).1.length = l.length := by
  intro l
  induction l with
  | nil => intro n bal tot; simp [expRows]
  | cons e es ih =>
    intro n bal tot
    simp only [expRows, List.length_cons]
    rw [ih]

theorem expRows_map_kind (lk : Option PyStr) :
    ∀ (l : List Entry) (n : Nat) (bal tot : ℚ),
      (expRows lk n bal tot l).1.map (·.kind) = List.replicate l.length RowKind.E := by
  intro l
  induction l with
  | nil => intro n bal tot; simp [expRows]
  | cons e es ih =>
    intro n bal tot
    simp only [expRows, List.map_cons, List.length_cons, List.replicate_succ]
    rw [ih]
    rfl

theorem expRows_map_no (lk : Option PyStr) :
    ∀ (l : List Entry) (n : Nat) (bal tot : ℚ),
      (expRows lk n bal tot l).1.map (·.no) =
        (List.range' n l.length).map to_myanmar_num := by
  intro l
  induction l with
  | nil => intro n bal tot; simp [expRows]
  | cons e es ih =>
    intro n bal tot
    simp only [expRows, List.map_cons, List.length_cons, List.range'_succ]
    rw [ih]
    rfl

theorem expRows_map_key (lk : Option PyStr) :
    ∀ (l : List Entry) (n : Nat) (bal tot : ℚ),
      (expRows lk n bal tot l).1.map (·.key) = l.map expKey := by
  intro l
  induction l with
  | nil => intro n bal tot; simp [expRows]
  | cons e es ih =>
    intro n bal tot
    simp only [expRows, List.map_cons]
    rw [ih]
    rfl

theorem expRows_mem (lk : Option PyStr) :
    ∀ (l : List Entry) (n : Nat) (bal tot : ℚ) (r : Row), r ∈ (expRows lk n bal tot l).1 →
      r.kind = RowKind.E ∧ ∃ t : DateTime, r.date = mmize (strftime_dmY t) := by
  intro l
  induction l with
  | nil => intro n bal tot r hr; simp [expRows] at hr
  | cons e es ih =>
    intro n bal tot r hr
    simp only [expRows, List.mem_cons] at hr
    rcases hr with rfl | hr
    · exact ⟨rfl, ⟨e.dt, rfl⟩⟩
    · exact ih (n + 1) (bal - e.amount) (tot + e.amount) r hr

theorem expRows_getLast (lk : Option PyStr) :
    ∀ (l : List Entry) (n : Nat) (bal tot : ℚ), l ≠ [] →
      ∃ r : Row, (expRows lk n bal tot l).1.getLast? = some r ∧
        r.balance = format_amount_mm (bal - sumAmt l) := by
  intro l
  induction l with
  | nil => intro n bal tot h; exact absurd rfl h
  | cons e es ih =>
    intro n bal tot _
    by_cases hes : es = []
    · subst hes
      refine ⟨mkExpRow lk n (bal - e.amount) e, by simp [expRows], ?_⟩
      show format_amount_mm (bal - e.amount) = _
      rw [sumAmt_cons, sumAmt_nil, add_zero]
    · obtain ⟨r, hr, hb⟩ := ih (n + 1) (bal - e.amount) (tot + e.amount) hes
      have hne : (expRows lk (n + 1) (bal - e.amount) (tot + e.amount) es).1 ≠ [] := by
        intro h0
        apply hes
        have hlen := expRows_len lk es (n + 1) (bal - e.amount) (tot + e.amount)
        rw [h0] at hlen
        exact List.length_eq_zero.mp hlen.symm
      refine ⟨r, ?_, ?_⟩
      · simp only [expRows]
        have hsplit : (mkExpRow lk n (bal - e.amount) e ::
            (expRows lk (n + 1) (bal - e.amount) (tot + e.amount) es).1) =
            [mkExpRow lk n (bal - e.amount) e] ++
              (expRows lk (n + 1) (bal - e.amount) (tot + e.amount) es).1 := rfl
        rw [hsplit, List.getLast?_append_of_ne_nil _ hne, hr]
      · rw [hb]
        congr 1
        rw [sumAmt_cons]
        ring

theorem dayIncs_perm (inc : List Entry) (d : Date) :
    List.Perm (dayIncs inc d) (inc.filter (dayEq d)) :=
  List.perm_insertionSort entLE _

theorem dayIncs_sorted (inc : List Entry) (d : Date) :
    (dayIncs inc d).Sorted entLE :=
  List.sorted_insertionSort entLE _

theorem dayExps_perm (exp : List Entry) (d : Date) :
    List.Perm (dayExps exp d) (exp.filter (dayEq d)) :=
  List.perm_insertionSort entLE _

theorem dayExps_sorted (exp : List Entry) (d : Date) :
    (dayExps exp d).Sorted entLE :=
  List.sorted_insertionSort entLE _

theorem sumAmt_dayIncs (inc : List Entry) (d : Date) :
    sumAmt (dayIncs inc d) = sumAmt (inc.filter (dayEq d)) :=
  sumAmt_perm (dayIncs_perm inc d)

theorem sumAmt_dayExps (exp : List Entry) (d : Date) :
    sumAmt (dayExps exp d) = sumAmt (exp.filter (dayEq d)) :=
  sumAmt_perm (dayExps_perm exp d)

theorem dayIncs_len (inc : List Entry) (d : Date) :
    (dayIncs inc d).length = (inc.filter (dayEq d)).length :=
  (dayIncs_perm inc d).length_eq

theorem dayExps_len (exp : List Entry) (d : Date) :
    (dayExps exp d).length = (exp.filter (dayEq d)).length :=
  (dayExps_perm exp d).length_eq

theorem dayIncs_eq_nil_iff (inc : List Entry) (d : Date) :
    dayIncs inc d = [] ↔ inc.filter (dayEq d) = [] := by
  constructor <;> intro h
  · have hlen := dayIncs_len inc d
    rw [h] at hlen
    exact List.length_eq_zero.mp hlen.symm
  · unfold dayIncs
    rw [h]
    rfl

theorem dayExps_eq_nil_iff (exp : List Entry) (d : Date) :
    dayExps exp d = [] ↔ exp.filter (dayEq d) = [] := by
  constructor <;> intro h
  · have hlen := dayExps_len exp d
    rw [h] at hlen
    exact List.length_eq_zero.mp hlen.symm
  · unfold dayExps
    rw [h]
    rfl

theorem dayBlock_bal (lk : Option PyStr) (d : Date) (incs exps : List Entry) (bal : ℚ) :
    (dayBlock lk d incs exps bal).2 = bal + sumAmt incs - sumAmt exps := by
  show (expRows lk _ (incRows lk 1 bal incs).2.2 0 exps).2.2.1 = _
  rw [expRows_bal, incRows_bal]

theorem dayBlock_rows (lk : Option PyStr) (d : Date) (incs exps : List Entry) (bal : ℚ) :
    (dayBlock lk d incs exps bal).1 =
      (incRows lk 1 bal incs).1 ++
        (expRows lk (1 + incs.length) (bal + sumAmt incs) 0 exps).1 ++
        (if incs = [] ∧ exps = [] then []
         else [totalRow d (sumAmt exps), dividerRow]) := by
  show (incRows lk 1 bal incs).1 ++
      (expRows lk (incRows lk 1 bal incs).2.1 (incRows lk 1 bal incs).2.2 0 exps).1 ++ _ = _
  rw [incRows_num, incRows_bal, expRows_tot, zero_add]

theorem dayDelta_def (inc exp : List Entry) (d : Date) :
    dayDelta inc exp d =
      sumAmt (inc.filter (dayEq d)) - sumAmt (exp.filter (dayEq d)) := rfl

theorem deltaSum_nil (inc exp : List Entry) : deltaSum inc exp [] = 0 := rfl

theorem deltaSum_cons (inc exp : List Entry) (d : Date) (ds : List Date) :
    deltaSum inc exp (d :: ds) = dayDelta inc exp d + deltaSum inc exp ds := by
  simp [deltaSum]

theorem deltaSum_append (inc exp : List Entry) (ds₁ ds₂ : List Date) :
    deltaSum inc exp (ds₁ ++ ds₂) = deltaSum inc exp ds₁ + deltaSum inc exp ds₂ := by
  simp [deltaSum]

theorem monthDays_nodup (inc exp : List Entry) : (monthDays inc exp).Nodup := by
  unfold monthDays
  exact ((List.perm_insertionSort dateLE _).nodup_iff).mpr (List.nodup_dedup _)

theorem monthDays_sorted (inc exp : List Entry) : (monthDays inc exp).Sorted dateLE :=
  List.sorted_insertionSort dateLE _

theorem mem_monthDays {inc exp : List Entry} {d : Date} :
    d ∈ monthDays inc exp ↔
      ((∃ e ∈ inc, e.dt.date = d) ∨ (∃ e ∈ exp, e.dt.date = d)) := by
  unfold monthDays
  rw [(List.perm_insertionSort dateLE _).mem_iff, List.mem_dedup, List.mem_append]
  simp [List.mem_map]

theorem monthDays_cover_inc (inc exp : List Entry) :
    ∀ e ∈ inc, e.dt.date ∈ monthDays inc exp :=
  fun e he => mem_monthDays.mpr (Or.inl ⟨e, he, rfl⟩)

theorem monthDays_cover_exp (inc exp : List Entry) :
    ∀ e ∈ exp, e.dt.date ∈ monthDays inc exp :=
  fun e he => mem_monthDays.mpr (Or.inr ⟨e, he, rfl⟩)

theorem monthDays_day_nonempty {inc exp : List Entry} {d : Date}
    (hd : d ∈ monthDays inc exp) :
    ¬(dayIncs inc d = [] ∧ dayExps exp d = []) := by
  rintro ⟨hi, he⟩
  rcases mem_monthDays.mp hd with ⟨e, hmem, hdate⟩ | ⟨e, hmem, hdate⟩
  · have hin : e ∈ inc.filter (dayEq d) :=
      List.mem_filter.mpr ⟨hmem, by simp [dayEq, hdate]⟩
    rw [(dayIncs_eq_nil_iff inc d).mp hi] at hin
    exact absurd hin (List.not_mem_nil e)
  · have hin : e ∈ exp.filter (dayEq d) :=
      List.mem_filter.mpr ⟨hmem, by simp [dayEq, hdate]⟩
    rw [(dayExps_eq_nil_iff exp d).mp he] at hin
    exact absurd hin (List.not_mem_nil e)

theorem deltaSum_total (inc exp : List Entry) :
    deltaSum inc exp (monthDays inc exp) = sumAmt inc - sumAmt exp := by
  unfold deltaSum dayDelta
  have hsub : ∀ ds : List Date,
      (ds.map (fun d => sumAmt (inc.filter (dayEq d)) -
        sumAmt (exp.filter (dayEq d)))).sum
        = (ds.map (fun d => sumAmt (inc.filter (dayEq d)))).sum
          - (ds.map (fun d => sumAmt (exp.filter (dayEq d)))).sum := by
    intro ds
    induction ds with
    | nil => simp
    | cons d ds ih => simp only [List.map_cons, List.sum_cons, ih]; ring
  rw [hsub,
    sum_filter_partition _ (monthDays_nodup inc exp) inc (monthDays_cover_inc inc exp),
    sum_filter_partition _ (monthDays_nodup inc exp) exp (monthDays_cover_exp inc exp)]

theorem monthFold_append (lk : Option PyStr) (inc exp : List Entry) :
    ∀ (ds₁ ds₂ : List Date) (bal : ℚ),
      monthFold lk inc exp (ds₁ ++ ds₂) bal =
        monthFold lk inc exp ds₁ bal ++
          monthFold lk inc exp ds₂ (bal + deltaSum inc exp ds₁) := by
  intro ds₁
  induction ds₁ with
  | nil =>
    intro ds₂ bal
    simp [monthFold, deltaSum_nil]
  | cons d ds ih =>
    intro ds₂ bal
    simp only [List.cons_append, monthFold, List.append_assoc]
    congr 1
    simp only [List.append_eq]
    rw [ih]
    congr 1
    have harg : (dayBlock lk d (dayIncs inc d) (dayExps exp d) bal).2 +
        deltaSum inc exp ds = bal + deltaSum inc exp (d :: ds) := by
      rw [dayBlock_bal, deltaSum_cons, dayDelta_def, sumAmt_dayIncs, sumAmt_dayExps]
      ring
    rw [harg]

theorem group_split (inc exp : List Entry) (lk : Option PyStr) (d : Date)
    (hd : d ∈ monthDays inc exp) :
    ∃ (bal : ℚ) (l₁ l₂ : List Row), group_month_rows inc exp lk =
      l₁ ++ (dayBlock lk d (dayIncs inc d) (dayExps exp d) bal).1 ++ l₂ := by
  obtain ⟨ds₁, ds₂, hsplit⟩ := List.append_of_mem hd
  refine ⟨0 + deltaSum inc exp ds₁, monthFold lk inc exp ds₁ 0,
    monthFold lk inc exp ds₂
      (dayBlock lk d (dayIncs inc d) (dayExps exp d) (0 + deltaSum inc exp ds₁)).2, ?_⟩
  unfold group_month_rows
  rw [hsplit, monthFold_append]
  simp only [monthFold, List.append_assoc]

/-- C5: the close-month route fails exactly when the viewed month has zero
Expense entries; on that failure the database and session are unchanged and
no `month_summary` snapshot is written; on success it appends exactly one
`month_summary` row holding the month's expense-only sum, advances the
session's period pointer to the next calendar month, clears the last-touched
marker and reports the snapshotted total. -/
theorem C5_close_month (db : Database) (sess : Session) (uid : Nat) :
    ((close_month_route db sess uid).2.2 = none ↔
      db.get_expenses_by_month uid sess.current_year sess.current_month = []) ∧
    (db.get_expenses_by_month uid sess.current_year sess.current_month = [] →
      close_month_route db sess uid = (db, sess, none)) ∧
    (db.get_expenses_by_month uid sess.current_year sess.current_month ≠ [] →
      close_month_route db sess uid =
        ({ db with month_summary := db.month_summary ++
            [⟨uid, sess.current_year, sess.current_month,
              db.get_total_expenses_by_month uid sess.current_year sess.current_month⟩] },
         ⟨(next_month sess.current_year sess.current_month).1,
          (next_month sess.current_year sess.current_month).2, none⟩,
         some (db.get_total_expenses_by_month uid
            sess.current_year sess.current_month))) := by
  unfold close_month_route Database.close_month Database.get_total_expenses_by_month
  by_cases h : db.get_expenses_by_month uid sess.current_year sess.current_month = []
  · simp [h]
  · simp [h]

/-- C5 witness: on a concrete one-expense March 2024 database the route
succeeds with the snapshot appended and the pointer advanced. -/
theorem C5_close_month_witness :
    close_month_route dbWithExp sessMar2024 1 =
      ({ dbWithExp with month_summary := dbWithExp.month_summary ++
          [⟨1, sessMar2024.current_year, sessMar2024.current_month,
            dbWithExp.get_total_expenses_by_month 1
              sessMar2024.current_year sessMar2024.current_month⟩] },
       ⟨(next_month sessMar2024.current_year sessMar2024.current_month).1,
        (next_month sessMar2024.current_year sessMar2024.current_month).2, none⟩,
       some (dbWithExp.get_total_expenses_by_month 1
          sessMar2024.current_year sessMar2024.current_month)) := by
  have h := (C5_close_month dbWithExp sessMar2024 1).2.2 (by decide)
  rw [h]

/-- C7 counterexample: for a March 2024 ledger holding one Income and no
Expenses, the close-month route is rejected (result `none`) and no
`month_summary` snapshot is written, contradicting the claim that closure
succeeds with a zero total. -/
theorem C7_counterexample :
    dbIncOnly.incomes ≠ [] ∧ dbIncOnly.expenses = [] ∧
    close_month_route dbIncOnly sessMar2024 1 = (dbIncOnly, sessMar2024, none) ∧
    (close_month_route dbIncOnly sessMar2024 1).1.month_summary = [] := by
  decide

/-- C7 (amended): for a month containing at least one Income entry and zero
Expense entries, the close-month route fails and writes no MonthClosure
snapshot (the database and session are returned unchanged). -/
theorem C7_income_only_blocked (db : Database) (sess : Session) (uid : Nat)
    (hinc : ∃ r ∈ db.incomes, r.user_id = uid ∧ r.date.year = sess.current_year ∧
      r.date.month = sess.current_month)
    (hexp : db.get_expenses_by_month uid sess.current_year sess.current_month = []) :
    close_month_route db sess uid = (db, sess, none) := by
  unfold close_month_route
  rw [if_pos hexp]

/-- C7 witness: the amended theorem applied to the concrete income-only
database. -/
theorem C7_income_only_blocked_witness :
    close_month_route dbIncOnly sessMar2024 1 = (dbIncOnly, sessMar2024, none) :=
  C7_income_only_blocked dbIncOnly sessMar2024 1 (by decide) (by decide)

/-- C9: the MonthClosure history is append-only: every ledger or user
mutation leaves `month_summary` untouched, `Database.close_month` always
appends exactly one fresh row without deduplication, and closing the same
(user, year, month) twice appends two independent rows. -/
theorem C9_append_only (db : Database) (uid : Nat) (t : DateTime)
    (dsc nt u p : PyStr) (q : ℚ) (eid y m : Nat) :
    (db.add_expense uid t dsc q nt).1.month_summary = db.month_summary ∧
    (db.update_expense eid dsc q nt).month_summary = db.month_summary ∧
    (db.delete_expense eid).month_summary = db.month_summary ∧
    (db.add_income uid t q dsc nt).1.month_summary = db.month_summary ∧
    (db.update_income eid q dsc nt).month_summary = db.month_summary ∧
    (db.delete_income eid).month_summary = db.month_summary ∧
    (db.create_user u p).1.month_summary = db.month_summary ∧
    (db.close_month uid y m).1.month_summary =
      db.month_summary ++ [⟨uid, y, m, (db.close_month uid y m).2⟩] ∧
    ((db.close_month uid y m).1.close_month uid y m).1.month_summary =
      db.month_summary ++ [⟨uid, y, m, (db.close_month uid y m).2⟩,
        ⟨uid, y, m, ((db.close_month uid y m).1.close_month uid y m).2⟩] := by
  refine ⟨rfl, rfl, rfl, rfl, rfl, rfl, ?_, rfl, ?_⟩
  · unfold Database.create_user
    split_ifs <;> rfl
  · unfold Database.close_month
    simp

/-- C8: `format_amount` on a numeric value renders the comma-separated ASCII
decimal of an integer within one half of the input (nearest-integer
rounding, no decimal places), with `format_amount(1999.6) = "2,000"`; on a
non-numeric value it returns the literal string unchanged instead of
raising. -/
theorem C8_format_amount :
    (∀ q : ℚ, format_amount (PyVal.num q) = intCommaFmt (pyRound q) ∧
      |(pyRound q : ℚ) - q| ≤ 1 / 2) ∧
    format_amount (PyVal.num (9998 / 5)) = ("2,000").data ∧
    (∀ s : PyStr, format_amount (PyVal.str s) = s) := by
  refine ⟨fun q => ⟨rfl, pyRound_near q⟩, by decide, fun s => rfl⟩

/-- C6 counterexample: the round trip on `"1,000"` strips the comma, so it
does not return the input unchanged. -/
theorem C6_counterexample :
    en_number_string (mmize (("1,000").data)) ≠ ("1,000").data := by
  decide

/-- C6 (amended): for an ASCII numeric string of digits, commas and
whitespace, `toAsciiAmount(toLocalizedDigits(x))` returns `x` with all
thousands-separator commas removed and surrounding whitespace stripped; it
is the identity when `x` consists of digits only. -/
theorem C6_roundtrip (x : PyStr)
    (h : ∀ c ∈ x, c ∈ EN_DIGITS ∨ c = ',' ∨ isPySpace c = true) :
    en_number_string (mmize x) = pyStrip (x.filter (fun c => c != ',')) ∧
    ((∀ c ∈ x, c ∈ EN_DIGITS) → en_number_string (mmize x) = x) := by
  have hx := pyTranslate_roundtrip x h
  have hmain : en_number_string (mmize x) =
      pyStrip (x.filter (fun c => c != ',')) := by
    unfold en_number_string
    rw [hx]
  refine ⟨hmain, fun hdig => ?_⟩
  rw [hmain]
  have hfilter : x.filter (fun c => c != ',') = x := by
    apply List.filter_eq_self.mpr
    intro c hc
    have hd := hdig c hc
    unfold EN_DIGITS at hd
    simp only [List.mem_cons, List.not_mem_nil, or_false] at hd
    rcases hd with rfl | rfl | rfl | rfl | rfl | rfl | rfl | rfl | rfl | rfl <;> decide
  rw [hfilter]
  apply pyStrip_eq_self
  intro c hc
  have hd := hdig c hc
  unfold EN_DIGITS at hd
  simp only [List.mem_cons, List.not_mem_nil, or_false] at hd
  rcases hd with rfl | rfl | rfl | rfl | rfl | rfl | rfl | rfl | rfl | rfl <;> decide

/-- C6 witness: the amended theorem applied to `"1,000"` (comma stripped)
and, through its second conjunct's hypothesis failing, the general form. -/
theorem C6_roundtrip_witness :
    en_number_string (mmize (("1,000").data)) =
      pyStrip ((("1,000").data).filter (fun c => c != ',')) ∧
    ((∀ c ∈ ("1,000").data, c ∈ EN_DIGITS) →
      en_number_string (mmize (("1,000").data)) = ("1,000").data) :=
  C6_roundtrip (("1,000").data) (by decide)

theorem filter_isDetail_incRows (lk : Option PyStr) (l : List Entry) (n : Nat) (bal : ℚ) :
    (incRows lk n bal l).1.filter Row.isDetail = (incRows lk n bal l).1 := by
  apply List.filter_eq_self.mpr
  intro r hr
  have hk := (incRows_mem lk l n bal r hr).1
  simp [Row.isDetail, hk]

theorem filter_isDetail_expRows (lk : Option PyStr) (l : List Entry) (n : Nat) (bal tot : ℚ) :
    (expRows lk n bal tot l).1.filter Row.isDetail = (expRows lk n bal tot l).1 := by
  apply List.filter_eq_self.mpr
  intro r hr
  have hk := (expRows_mem lk l n bal tot r hr).1
  simp [Row.isDetail, hk]

theorem filter_isDetail_dayBlock (lk : Option PyStr) (d : Date)
    (incs exps : List Entry) (bal : ℚ) :
    (dayBlock lk d incs exps bal).1.filter Row.isDetail =
      (incRows lk 1 bal incs).1 ++
        (expRows lk (1 + incs.length) (bal + sumAmt incs) 0 exps).1 := by
  rw [dayBlock_rows, List.filter_append, List.filter_append,
    filter_isDetail_incRows, filter_isDetail_expRows]
  have htail : ((if incs = [] ∧ exps = [] then []
      else [totalRow d (sumAmt exps), dividerRow]).filter Row.isDetail) = [] := by
    split
    · rfl
    · rfl
  rw [htail, List.append_nil]

/-- C2: for every day of the month present in the entries, the aggregator
output contains that day's Total caption row, immediately followed by the
divider row, and the caption's formatted value is the sum of that day's
Expense amounts only (Income amounts excluded); a day with only Incomes
still gets the pair, showing a zero expense subtotal. -/
theorem C2_day_total (inc exp : List Entry) (lk : Option PyStr) (d : Date)
    (hd : d ∈ monthDays inc exp) :
    ∃ l₁ l₂ : List Row, group_month_rows inc exp lk =
      l₁ ++ totalRow d (sumAmt (exp.filter (dayEq d))) :: dividerRow :: l₂ := by
  obtain ⟨bal, l₁, l₂, hsplit⟩ := group_split inc exp lk d hd
  rw [dayBlock_rows, if_neg (monthDays_day_nonempty hd), sumAmt_dayExps] at hsplit
  refine ⟨l₁ ++ ((incRows lk 1 bal (dayIncs inc d)).1 ++
    (expRows lk (1 + (dayIncs inc d).length) (bal + sumAmt (dayIncs inc d)) 0
      (dayExps exp d)).1), l₂, ?_⟩
  rw [hsplit]
  simp [List.append_assoc]

/-- C2 witness: a day carrying a single Income and no Expenses still emits
the Total caption and divider pair, with a zero expense subtotal. -/
theorem C2_day_total_witness :
    ∃ l₁ l₂ : List Row, group_month_rows [entSalary] [] none =
      l₁ ++ totalRow ⟨2024, 3, 1⟩
        (sumAmt (([] : List Entry).filter (dayEq ⟨2024, 3, 1⟩))) ::
        dividerRow :: l₂ :=
  C2_day_total [entSalary] [] none ⟨2024, 3, 1⟩ (by decide)

/-- C3: within each day's block of the output, the Detail rows carry the
localized sequence numbers 1..N in order, where N is that day's income count
plus expense count; the numbering restarts at 1 for the day, runs across
both variants, and all Income rows come before all Expense rows. -/
theorem C3_day_numbering (inc exp : List Entry) (lk : Option PyStr) (d : Date)
    (hd : d ∈ monthDays inc exp) :
    ∃ (bal : ℚ) (l₁ l₂ : List Row),
      group_month_rows inc exp lk =
        l₁ ++ (dayBlock lk d (dayIncs inc d) (dayExps exp d) bal).1 ++ l₂ ∧
      ((dayBlock lk d (dayIncs inc d) (dayExps exp d) bal).1.filter
          Row.isDetail).map (·.no) =
        (List.range' 1 ((inc.filter (dayEq d)).length +
          (exp.filter (dayEq d)).length)).map to_myanmar_num ∧
      ((dayBlock lk d (dayIncs inc d) (dayExps exp d) bal).1.filter
          Row.isDetail).map (·.kind) =
        List.replicate (inc.filter (dayEq d)).length RowKind.I ++
          List.replicate (exp.filter (dayEq d)).length RowKind.E := by
  obtain ⟨bal, l₁, l₂, hsplit⟩ := group_split inc exp lk d hd
  refine ⟨bal, l₁, l₂, hsplit, ?_, ?_⟩
  · rw [filter_isDetail_dayBlock, List.map_append, incRows_map_no, expRows_map_no,
      ← List.map_append, List.range'_append_1, dayIncs_len, dayExps_len,
      Nat.add_comm]
  · rw [filter_isDetail_dayBlock, List.map_append, incRows_map_kind,
      expRows_map_kind, dayIncs_len, dayExps_len]

/-- C3 witness: the numbering property instantiated on the concrete
one-income March 2024 day. -/
theorem C3_day_numbering_witness :
    ∃ (bal : ℚ) (l₁ l₂ : List Row),
      group_month_rows [entSalary] [] none =
        l₁ ++ (dayBlock none ⟨2024, 3, 1⟩ (dayIncs [entSalary] ⟨2024, 3, 1⟩)
          (dayExps [] ⟨2024, 3, 1⟩) bal).1 ++ l₂ ∧
      ((dayBlock none ⟨2024, 3, 1⟩ (dayIncs [entSalary] ⟨2024, 3, 1⟩)
          (dayExps [] ⟨2024, 3, 1⟩) bal).1.filter Row.isDetail).map (·.no) =
        (List.range' 1 (([entSalary].filter (dayEq ⟨2024, 3, 1⟩)).length +
          (([] : List Entry).filter (dayEq ⟨2024, 3, 1⟩)).length)).map to_myanmar_num ∧
      ((dayBlock none ⟨2024, 3, 1⟩ (dayIncs [entSalary] ⟨2024, 3, 1⟩)
          (dayExps [] ⟨2024, 3, 1⟩) bal).1.filter Row.isDetail).map (·.kind) =
        List.replicate ([entSalary].filter (dayEq ⟨2024, 3, 1⟩)).length RowKind.I ++
          List.replicate (([] : List Entry).filter (dayEq ⟨2024, 3, 1⟩)).length
            RowKind.E :=
  C3_day_numbering [entSalary] [] none ⟨2024, 3, 1⟩ (by decide)

theorem dateLE_ne_lt {a b : Date} (hle : dateLE a b) (hne : a ≠ b) : dateLT a b := by
  obtain ⟨ay, am, ad⟩ := a
  obtain ⟨by', bm, bd⟩ := b
  unfold dateLE at hle
  unfold dateLT
  simp only [ne_eq, Date.mk.injEq] at hne
  dsimp only at hle ⊢
  omega

theorem monthDays_pairwise_lt (inc exp : List Entry) :
    (monthDays inc exp).Pairwise dateLT := by
  have hs := monthDays_sorted inc exp
  have hn := monthDays_nodup inc exp
  exact (hs.and hn).imp (fun hab => dateLE_ne_lt hab.1 hab.2)

theorem dateLT_irrefl (d : Date) : ¬dateLT d d := by
  unfold dateLT
  omega

theorem dateLT_asymm {a b : Date} (hab : dateLT a b) (hba : dateLT b a) : False := by
  unfold dateLT at hab hba
  omega

theorem sum_map_sub_q {α : Type} (l : List α) (f g : α → ℚ) :
    (l.map (fun x => f x - g x)).sum = (l.map f).sum - (l.map g).sum := by
  induction l with
  | nil => simp
  | cons x xs ih => simp only [List.map_cons, List.sum_cons, ih]; ring

theorem sum_map_ite_all (x : Date) (c : ℚ) :
    ∀ ds : List Date, ds.Nodup →
      (ds.map (fun d => if x = d then c else 0)).sum = if x ∈ ds then c else 0 := by
  intro ds
  induction ds with
  | nil => intro _; simp
  | cons d rest ih =>
    intro hnd
    have hnd' := List.nodup_cons.mp hnd
    by_cases hx : x = d
    · subst hx
      have hz : (rest.map (fun d => if x = d then c else 0)).sum = 0 := by
        apply List.sum_eq_zero
        intro y hy
        obtain ⟨d', hd', hval⟩ := List.mem_map.mp hy
        have hne : x ≠ d' := by
          intro he
          apply hnd'.1
          rw [he]
          exact hd'
        rw [← hval, if_neg hne]
      simp [hz]
    · simp [List.mem_cons, hx, ih hnd'.2]

theorem sum_filter_partition_mem (ds : List Date) (hnd : ds.Nodup) :
    ∀ l : List Entry,
      (ds.map (fun d => sumAmt (l.filter (dayEq d)))).sum =
        sumAmt (l.filter (fun e => decide (e.dt.date ∈ ds))) := by
  intro l
  induction l with
  | nil => simp [sumAmt]
  | cons e es ih =>
    have hpt : ∀ d ∈ ds, sumAmt ((e :: es).filter (dayEq d)) =
        (if e.dt.date = d then e.amount else 0) + sumAmt (es.filter (dayEq d)) := by
      intro d _
      by_cases h : e.dt.date = d
      · simp [List.filter_cons, dayEq, h, sumAmt_cons]
      · simp [List.filter_cons, dayEq, h]
    calc (ds.map fun d => sumAmt ((e :: es).filter (dayEq d))).sum
        = (ds.map fun d => (if e.dt.date = d then e.amount else 0) +
            sumAmt (es.filter (dayEq d))).sum :=
          congrArg List.sum (List.map_congr_left hpt)
      _ = (ds.map fun d => if e.dt.date = d then e.amount else 0).sum +
            (ds.map fun d => sumAmt (es.filter (dayEq d))).sum := sum_map_add_q ds _ _
      _ = (if e.dt.date ∈ ds then e.amount else 0) +
            sumAmt (es.filter (fun x => decide (x.dt.date ∈ ds))) := by
          rw [sum_map_ite_all e.dt.date e.amount ds hnd, ih]
      _ = sumAmt ((e :: es).filter (fun x => decide (x.dt.date ∈ ds))) := by
          by_cases h : e.dt.date ∈ ds
          · simp [List.filter_cons, h, sumAmt_cons]
          · simp [List.filter_cons, h]

theorem prevBal_eq (inc exp : List Entry) (ds₁ : List Date) (d : Date)
    (rest : List Date) (h : monthDays inc exp = ds₁ ++ d :: rest) :
    deltaSum inc exp ds₁ = prevBal inc exp d := by
  have hnd : ds₁.Nodup := by
    have hmd := monthDays_nodup inc exp
    rw [h] at hmd
    exact hmd.of_append_left
  have hpw := monthDays_pairwise_lt inc exp
  rw [h] at hpw
  have hsplitpw := List.pairwise_append.mp hpw
  have h₁ : ∀ d' ∈ ds₁, dateLT d' d :=
    fun d' hd' => hsplitpw.2.2 d' hd' d (List.mem_cons_self d rest)
  have h₂ : ∀ d' ∈ rest, dateLT d d' := (List.pairwise_cons.mp hsplitpw.2.1).1
  have hiff : ∀ x : Date, x ∈ ds₁ ++ d :: rest → (x ∈ ds₁ ↔ dateLT x d) := by
    intro x hx
    constructor
    · exact h₁ x
    · intro hlt
      rcases List.mem_append.mp hx with hx1 | hx2
      · exact hx1
      · rcases List.mem_cons.mp hx2 with rfl | hx3
        · exact absurd hlt (dateLT_irrefl x)
        · exact absurd hlt (fun hl => dateLT_asymm hl (h₂ x hx3))
  have hinc_f : inc.filter (fun e => decide (e.dt.date ∈ ds₁)) =
      inc.filter (fun e => decide (dateLT e.dt.date d)) := by
    apply List.filter_congr
    intro e he
    have hc := monthDays_cover_inc inc exp e he
    rw [h] at hc
    simp only [decide_eq_decide]
    exact hiff e.dt.date hc
  have hexp_f : exp.filter (fun e => decide (e.dt.date ∈ ds₁)) =
      exp.filter (fun e => decide (dateLT e.dt.date d)) := by
    apply List.filter_congr
    intro e he
    have hc := monthDays_cover_exp inc exp e he
    rw [h] at hc
    simp only [decide_eq_decide]
    exact hiff e.dt.date hc
  unfold deltaSum dayDelta prevBal
  calc (ds₁.map fun d' => sumAmt (inc.filter (dayEq d')) -
        sumAmt (exp.filter (dayEq d'))).sum
      = (ds₁.map fun d' => sumAmt (inc.filter (dayEq d'))).sum -
          (ds₁.map fun d' => sumAmt (exp.filter (dayEq d'))).sum :=
        sum_map_sub_q ds₁ _ _
    _ = sumAmt (inc.filter (fun e => decide (e.dt.date ∈ ds₁))) -
          sumAmt (exp.filter (fun e => decide (e.dt.date ∈ ds₁))) := by
        rw [sum_filter_partition_mem ds₁ hnd inc, sum_filter_partition_mem ds₁ hnd exp]
    _ = sumAmt (inc.filter (fun e => decide (dateLT e.dt.date d))) -
          sumAmt (exp.filter (fun e => decide (dateLT e.dt.date d))) := by
        rw [hinc_f, hexp_f]

theorem monthFold_join (lk : Option PyStr) (inc exp : List Entry) :
    ∀ (ds₂ ds₁ : List Date), monthDays inc exp = ds₁ ++ ds₂ →
      monthFold lk inc exp ds₂ (0 + deltaSum inc exp ds₁) =
        ((ds₂.map (fun d => (dayBlock lk d (dayIncs inc d) (dayExps exp d)
          (prevBal inc exp d)).1)).flatten) := by
  intro ds₂
  induction ds₂ with
  | nil => intro ds₁ _; simp [monthFold]
  | cons d rest ih =>
    intro ds₁ h
    have hprev : 0 + deltaSum inc exp ds₁ = prevBal inc exp d := by
      rw [zero_add]
      exact prevBal_eq inc exp ds₁ d rest h
    have hnext : (dayBlock lk d (dayIncs inc d) (dayExps exp d)
        (0 + deltaSum inc exp ds₁)).2 = 0 + deltaSum inc exp (ds₁ ++ [d]) := by
      rw [dayBlock_bal, deltaSum_append, deltaSum_cons, deltaSum_nil, add_zero,
        dayDelta_def, sumAmt_dayIncs, sumAmt_dayExps]
      ring
    simp only [monthFold, List.map_cons, List.flatten_cons]
    rw [hnext, ih (ds₁ ++ [d]) (by rw [h]; simp), hprev]

/-- C4: the aggregator output is ordered: it is exactly the concatenation,
over the strictly ascending list of present days, of that day's block (each
opened with the running balance of all strictly earlier days), so days
appear in ascending order in the output; within each day the per-day income
and expense lists are sorted by timestamp (as permutations of that day's
filtered entries); each present day's block is all its Income Detail rows,
then all its Expense Detail rows, then the day's Total caption, then the
divider; and a month with zero entries produces the empty row sequence. -/
theorem C4_ordering (inc exp : List Entry) (lk : Option PyStr) :
    ((inc = [] ∧ exp = []) → group_month_rows inc exp lk = []) ∧
    group_month_rows inc exp lk =
      (((monthDays inc exp).map (fun d =>
        (dayBlock lk d (dayIncs inc d) (dayExps exp d)
          (prevBal inc exp d)).1)).flatten) ∧
    (monthDays inc exp).Pairwise dateLT ∧
    (∀ d : Date, (dayIncs inc d).Sorted entLE ∧
      List.Perm (dayIncs inc d) (inc.filter (dayEq d)) ∧
      (dayExps exp d).Sorted entLE ∧
      List.Perm (dayExps exp d) (exp.filter (dayEq d))) ∧
    (∀ d ∈ monthDays inc exp, ∃ (bal : ℚ) (l₁ l₂ : List Row),
      group_month_rows inc exp lk =
        l₁ ++ ((incRows lk 1 bal (dayIncs inc d)).1 ++
          ((expRows lk (1 + (dayIncs inc d).length) (bal + sumAmt (dayIncs inc d)) 0
              (dayExps exp d)).1 ++
            [totalRow d (sumAmt (dayExps exp d)), dividerRow])) ++ l₂ ∧
      (incRows lk 1 bal (dayIncs inc d)).1.map (·.key) =
        (dayIncs inc d).map incKey ∧
      (expRows lk (1 + (dayIncs inc d).length) (bal + sumAmt (dayIncs inc d)) 0
          (dayExps exp d)).1.map (·.key) = (dayExps exp d).map expKey) := by
  refine ⟨?_, ?_, monthDays_pairwise_lt inc exp,
    fun d => ⟨dayIncs_sorted inc d, dayIncs_perm inc d,
      dayExps_sorted exp d, dayExps_perm exp d⟩, ?_⟩
  · rintro ⟨rfl, rfl⟩
    rfl
  · have hjoin := monthFold_join lk inc exp (monthDays inc exp) [] rfl
    rw [deltaSum_nil, add_zero] at hjoin
    exact hjoin
  · intro d hd
    obtain ⟨bal, l₁, l₂, hsplit⟩ := group_split inc exp lk d hd
    rw [dayBlock_rows, if_neg (monthDays_day_nonempty hd)] at hsplit
    refine ⟨bal, l₁, l₂, ?_, incRows_map_key lk _ 1 bal, expRows_map_key lk _ _ _ _⟩
    rw [hsplit]
    simp only [List.append_assoc]

/-- C4 witness: the per-day decomposition instantiated on the concrete
scenario, and the empty-month case. -/
theorem C4_ordering_witness :
    group_month_rows [] [] none = [] :=
  (C4_ordering [] [] none).1 ⟨rfl, rfl⟩

theorem monthFold_mem (lk : Option PyStr) (inc exp : List Entry) :
    ∀ (ds : List Date) (bal : ℚ) (r : Row), r ∈ monthFold lk inc exp ds bal →
      ((r.kind ≠ RowKind.T → ∃ t : DateTime, r.date = mmize (strftime_dmY t)) ∧
       (r.kind = RowKind.T → r.date = [] ∧
         (r.desc = ("--------").data ∨
          ∃ (d : Date) (q : ℚ), r.desc = captionDesc d q))) := by
  intro ds
  induction ds with
  | nil =>
    intro bal r hr
    simp [monthFold] at hr
  | cons d rest ih =>
    intro bal r hr
    simp only [monthFold, List.mem_append] at hr
    rcases hr with hr | hr
    · rw [dayBlock_rows] at hr
      simp only [List.mem_append] at hr
      rcases hr with (hr | hr) | hr
      · obtain ⟨hk, ht⟩ := incRows_mem lk _ _ _ r hr
        refine ⟨fun _ => ht, fun hT => ?_⟩
        rw [hk] at hT
        exact absurd hT (by decide)
      · obtain ⟨hk, ht⟩ := expRows_mem lk _ _ _ _ r hr
        refine ⟨fun _ => ht, fun hT => ?_⟩
        rw [hk] at hT
        exact absurd hT (by decide)
      · by_cases hcond : dayIncs inc d = [] ∧ dayExps exp d = []
        · rw [if_pos hcond] at hr
          exact absurd hr (List.not_mem_nil r)
        · rw [if_neg hcond] at hr
          simp only [List.mem_cons, List.not_mem_nil, or_false] at hr
          rcases hr with rfl | rfl
          · exact ⟨fun hne => absurd rfl hne,
              fun _ => ⟨rfl, Or.inr ⟨d, sumAmt (dayExps exp d), rfl⟩⟩⟩
          · exact ⟨fun hne => absurd rfl hne, fun _ => ⟨rfl, Or.inl rfl⟩⟩
    · exact ih _ r hr

/-- C10: every Detail row of the aggregator output renders its date via the
localized zero-padded `strftime("%d-%m-%Y")` format, while Total/divider
rows carry an empty date field and embed the `date_no_zeroes` rendering
inside the caption text only; for single-digit days the zero-padded format
starts with '0' whereas `date_no_zeroes` of a positive day never does, so
the no-leading-zeros format appears in caption rows only, never in Detail
rows. -/
theorem C10_date_formats :
    (∀ (inc exp : List Entry) (lk : Option PyStr) (r : Row),
      r ∈ group_month_rows inc exp lk →
        ((r.kind ≠ RowKind.T → ∃ t : DateTime, r.date = mmize (strftime_dmY t)) ∧
         (r.kind = RowKind.T → r.date = [] ∧
           (r.desc = ("--------").data ∨
            ∃ (d : Date) (q : ℚ), r.desc = captionDesc d q)))) ∧
    (∀ t : DateTime, t.day < 10 → ∃ s : PyStr, strftime_dmY t = '0' :: s) ∧
    (∀ d : Date, 0 < d.day → ∀ s : PyStr, date_no_zeroes d ≠ '0' :: s) := by
  refine ⟨fun inc exp lk r hr => monthFold_mem lk inc exp _ 0 r hr, ?_, ?_⟩
  · intro t ht
    unfold strftime_dmY padNum
    rw [natChars_lt10 t.day ht]
    exact ⟨Nat.digitChar t.day :: '-' :: (padNum 2 t.month ++ '-' :: padNum 4 t.year),
      rfl⟩
  · intro d hpos s hcontra
    unfold date_no_zeroes at hcontra
    obtain ⟨c, s', hcs⟩ : ∃ c s', natChars d.day = c :: s' := by
      cases hq : natChars d.day with
      | nil => exact absurd hq (natChars_ne_nil _)
      | cons a b => exact ⟨a, b, rfl⟩
    rw [hcs, List.cons_append] at hcontra
    have hc : c = '0' := (List.cons_eq_cons.mp hcontra).1
    exact natChars_head_ne_zero d.day hpos s' (hc ▸ hcs)

/-- C10 witness: the first Detail row of the concrete one-income month uses
the localized zero-padded date format. -/
theorem C10_date_formats_witness :
    ∃ t : DateTime, (mkIncRow none 1 (0 + entSalary.amount) entSalary).date =
      mmize (strftime_dmY t) :=
  (C10_date_formats.1 [entSalary] [] none
    (mkIncRow none 1 (0 + entSalary.amount) entSalary) (by decide)).1 (by decide)

/-- C1: for any month of entries, the running balance shown on the last
Detail row of the aggregator output is the formatted value of
sum(incomes) - sum(expenses) over the whole month, independent of how
entries are distributed across days: the balance starts at 0 for the month
and carries forward across days without a daily reset. -/
theorem C1_final_balance (inc exp : List Entry) (lk : Option PyStr)
    (h : inc ≠ [] ∨ exp ≠ []) :
    ∃ r : Row, ((group_month_rows inc exp lk).filter Row.isDetail).getLast? = some r ∧
      r.balance = format_amount_mm (sumAmt inc - sumAmt exp) := by
  have hds : monthDays inc exp ≠ [] := by
    rcases h with h | h
    · obtain ⟨e, he⟩ := List.exists_mem_of_ne_nil inc h
      exact List.ne_nil_of_mem (monthDays_cover_inc inc exp e he)
    · obtain ⟨e, he⟩ := List.exists_mem_of_ne_nil exp h
      exact List.ne_nil_of_mem (monthDays_cover_exp inc exp e he)
  set dL := (monthDays inc exp).getLast hds with hdLdef
  set bal0 := 0 + deltaSum inc exp (monthDays inc exp).dropLast with hbal0
  have hmemL : dL ∈ monthDays inc exp := List.getLast_mem hds
  have hsplit : monthDays inc exp = (monthDays inc exp).dropLast ++ [dL] :=
    (List.dropLast_append_getLast hds).symm
  have hrows : group_month_rows inc exp lk =
      monthFold lk inc exp (monthDays inc exp).dropLast 0 ++
        (dayBlock lk dL (dayIncs inc dL) (dayExps exp dL) bal0).1 := by
    unfold group_month_rows
    conv_lhs => rw [hsplit]
    rw [monthFold_append]
    simp [monthFold, hbal0]
  have hval : bal0 + sumAmt (dayIncs inc dL) - sumAmt (dayExps exp dL) =
      sumAmt inc - sumAmt exp := by
    have h1 : deltaSum inc exp (monthDays inc exp) =
        deltaSum inc exp (monthDays inc exp).dropLast + dayDelta inc exp dL := by
      conv_lhs => rw [hsplit]
      rw [deltaSum_append, deltaSum_cons, deltaSum_nil, add_zero]
    have h2 := deltaSum_total inc exp
    rw [hbal0, zero_add, sumAmt_dayIncs, sumAmt_dayExps]
    rw [dayDelta_def] at h1
    linarith
  have hdetail : (group_month_rows inc exp lk).filter Row.isDetail =
      (monthFold lk inc exp (monthDays inc exp).dropLast 0).filter Row.isDetail ++
        ((incRows lk 1 bal0 (dayIncs inc dL)).1 ++
          (expRows lk (1 + (dayIncs inc dL).length) (bal0 + sumAmt (dayIncs inc dL)) 0
            (dayExps exp dL)).1) := by
    rw [hrows, List.filter_append, filter_isDetail_dayBlock]
  by_cases hexp0 : dayExps exp dL = []
  · have hinc0 : dayIncs inc dL ≠ [] := fun h0 =>
      monthDays_day_nonempty hmemL ⟨h0, hexp0⟩
    obtain ⟨r, hr, hb⟩ := incRows_getLast lk (dayIncs inc dL) 1 bal0 hinc0
    have hAne : (incRows lk 1 bal0 (dayIncs inc dL)).1 ≠ [] := by
      intro h0
      apply hinc0
      have hlen := incRows_len lk (dayIncs inc dL) 1 bal0
      rw [h0] at hlen
      exact List.length_eq_zero.mp hlen.symm
    refine ⟨r, ?_, ?_⟩
    · rw [hdetail, hexp0]
      rw [show (expRows lk (1 + (dayIncs inc dL).length)
          (bal0 + sumAmt (dayIncs inc dL)) 0 ([] : List Entry)).1 = [] from rfl,
        List.append_nil, List.getLast?_append_of_ne_nil _ hAne, hr]
    · rw [hb]
      congr 1
      rw [hexp0, sumAmt_nil, sub_zero] at hval
      exact hval
  · obtain ⟨r, hr, hb⟩ := expRows_getLast lk (dayExps exp dL)
      (1 + (dayIncs inc dL).length) (bal0 + sumAmt (dayIncs inc dL)) 0 hexp0
    have hBne : (expRows lk (1 + (dayIncs inc dL).length)
        (bal0 + sumAmt (dayIncs inc dL)) 0 (dayExps exp dL)).1 ≠ [] := by
      intro h0
      apply hexp0
      have hlen := expRows_len lk (dayExps exp dL) (1 + (dayIncs inc dL).length)
        (bal0 + sumAmt (dayIncs inc dL)) 0
      rw [h0] at hlen
      exact List.length_eq_zero.mp hlen.symm
    have hABne : ((incRows lk 1 bal0 (dayIncs inc dL)).1 ++
        (expRows lk (1 + (dayIncs inc dL).length) (bal0 + sumAmt (dayIncs inc dL)) 0
          (dayExps exp dL)).1) ≠ [] := by
      intro h0
      exact hBne (List.append_eq_nil.mp h0).2
    refine ⟨r, ?_, ?_⟩
    · rw [hdetail, List.getLast?_append_of_ne_nil _ hABne,
        List.getLast?_append_of_ne_nil _ hBne, hr]
    · rw [hb, hval]

/-- C1 witness: the spec's acceptance scenario (Income 50000, Expenses 5000
and 2000 across two days) ends with the formatted month balance. -/
theorem C1_final_balance_witness :
    ∃ r : Row, ((group_month_rows [entSalary] [entLunch, entCoffee]
        none).filter Row.isDetail).getLast? = some r ∧
      r.balance = format_amount_mm (sumAmt [entSalary] -
        sumAmt [entLunch, entCoffee]) :=
  C1_final_balance [entSalary] [entLunch, entCoffee] none (Or.inl (by decide))
